import Mathlib

/-!
Shallow embedding of the fluminurs resource-synchronization engine
(`src/module.rs` and `src/bin/cli.rs`) and proofs about it.

Conventions of the embedding:
* `SystemTime` values are modelled as `Nat` (an abstract monotone clock).
* Filesystem state is an explicit association list from paths to file data,
  together with fault oracles that model the I/O errors the source matches on
  (metadata-probe failures, rename failures).
* Network behaviour is modelled by explicit oracles/scripts: the external
  authenticated request client of spec §6 is a structure of response
  functions, and each iteration of the download loop consumes one
  `Attempt` script describing how the streamed transfer goes.
* Fallible Rust code returning `Result` becomes `Except String`; a Rust
  panic is a distinguished result constructor.
-/

/-- Embeds `sanitise_filename` (module.rs:151-164), non-Windows branch
(`cfg!(windows)` false): `name.replace("\x7b0}", "-").replace("/", "-")`.
Single-character pattern replacement is exactly a character map, so the two
`replace` calls are embedded as two successive maps over the characters. -/
def sanitise_filename (name : String) : String :=
  ⟨(name.data.map (fun c => if c = Char.ofNat 0 then '-' else c)).map
    (fun c => if c = '/' then '-' else c)⟩

/-- Little-endian decimal digits of `n`, with explicit fuel so that the
definition is structural and computes by `rfl`/`decide`.  Mirrors the decimal
rendering performed by `format!` for the `_\x7bi}` suffixes in
`File::prepare_path`. -/
def decDigitsLEAux : Nat → Nat → List Nat
  | 0, _ => []
  | fuel + 1, n => if n < 10 then [n] else n % 10 :: decDigitsLEAux fuel (n / 10)

/-- Little-endian decimal digits of `n` (fuel `n + 1` always suffices). -/
def decDigitsLE (n : Nat) : List Nat :=
  decDigitsLEAux (n + 1) n

/-- Decimal rendering of a natural number, as used in the autorename suffix. -/
def natDec (n : Nat) : String :=
  ⟨(decDigitsLE n).reverse.map (fun d => Char.ofNat (48 + d))⟩

/-- Value of a little-endian digit list; used to prove `natDec` injective. -/
def valLE : List Nat → Nat
  | [] => 0
  | d :: ds => d + 10 * valLE ds


/-!  ## Remote tree resolver (`DirectoryHandle::load`, module.rs:195-282)  -/

/-- One entry of a `Data::ApiFileDirectory` server payload, as consumed by
`DirectoryHandle::load`: used both for the child-folder listing (fields `id`,
`name`, `allow_upload`) and for the direct-file listing (fields `id`, `name`,
`last_updated_date`, `creator_name`). -/
structure ApiFileDirectoryEntry where
  id : String
  name : String
  allow_upload : Option Bool
  last_updated_date : String
  creator_name : Option String
deriving DecidableEq, Repr

/-- Modelled from the spec: the external authenticated request client (§6) is
an out-of-scope collaborator (its Rust types live in the crate root, outside
`src/module.rs`).  Each response is either a transport error, `none` for a
payload that is not a file-directory listing (the `_ => Ok(vec![])` arms in
`load`), or the listing itself.  `subdirsResp id` models
`GET files/?ParentID=\x7bid}` and `filesResp id` models
`GET files/\x7bid}/file`. -/
structure Api where
  subdirsResp : String → Except String (Option (List ApiFileDirectoryEntry))
  filesResp : String → Except String (Option (List ApiFileDirectoryEntry))

/-- `DirectoryHandle` (module.rs:138-143); `path` is the list of local path
segments accumulated so far. -/
structure DirectoryHandle where
  id : String
  path : List String
  allow_upload : Bool
deriving DecidableEq, Repr

/-- `File` (module.rs:145-149): a resolved downloadable resource.
`last_updated` is the parsed remote last-modified time. -/
structure File where
  id : String
  path : List String
  last_updated : Nat
deriving DecidableEq, Repr

/-- Result of `DirectoryHandle::load`.  `panicked` models a Rust panic
(`parse_time`'s `expect` on an invalid RFC 3339 string); `fuelOut` is an
artifact of the fuel-indexed embedding of the unbounded recursion and is
unreachable for sufficiently large fuel. -/
inductive LoadRes where
  | ok (files : List File)
  | err (e : String)
  | panicked
  | fuelOut
deriving DecidableEq, Repr

/-- Combines the two joined sub-results of `load` (module.rs:274-276): a panic
in either branch propagates through the join; otherwise the subdirectory
result's error is surfaced first (`res_subdirs?` precedes `res_files?`), and
on success the lists are concatenated in the source's order. -/
def joinLoads : LoadRes → LoadRes → LoadRes
  | .panicked, _ => .panicked
  | _, .panicked => .panicked
  | .fuelOut, _ => .fuelOut
  | _, .fuelOut => .fuelOut
  | .err e, _ => .err e
  | .ok _, .err e => .err e
  | .ok a, .ok b => .ok (a ++ b)

/-- Combines the recursive child-folder results (module.rs:214-229,
`join_all` then `collect::<Result<Vec<_>>>` then flatten): a panic anywhere
propagates; otherwise the first error in order is returned; otherwise the
flattened concatenation. -/
def combineLoads : List LoadRes → LoadRes
  | [] => .ok []
  | r :: rs => joinLoads r (combineLoads rs)

/-- Embeds `parse_time` (module.rs:166-171) composed with the external RFC 3339
parser: the parser itself (chrono) is the `parse` oracle argument; a `none`
parse is the `expect` panic. -/
def parse_time (parse : String → Option Nat) (time : String) : Option Nat :=
  parse time

/-- Maps `f` over a list, stopping at the first `none` — the behaviour of
building the `Vec<File>` while `parse_time` may panic: the first invalid
element aborts (panics) the whole construction. -/
def optionTraverse {α β : Type} (f : α → Option β) : List α → Option (List β)
  | [] => some []
  | x :: xs =>
    match f x with
    | none => none
    | some y =>
      match optionTraverse f xs with
      | none => none
      | some ys => some (y :: ys)

/-- The local file name chosen for a listed file (module.rs:253-266): inside an
upload-enabled folder the name is `"\x7bcreator} - \x7bname}"` (creator falling
back to `"Unknown"`) before sanitization, otherwise the raw name is sanitized
directly. -/
def fileLocalName (allowUpload : Bool) (s : ApiFileDirectoryEntry) : String :=
  if allowUpload then
    sanitise_filename ((s.creator_name.getD "Unknown") ++ " - " ++ s.name)
  else
    sanitise_filename s.name

/-- Embeds `DirectoryHandle::load` (module.rs:197-281), indexed by recursion
fuel.  The subdirectory listing is filtered by the upload predicate, each
surviving child handle extends the local path with its sanitized name and is
loaded recursively; the direct-file listing is mapped to `File`s (panicking on
an unparsable timestamp); the two joined results are combined with the
subdirectory files first (`let mut files = res_subdirs?; files.append(&mut
res_files?)`). -/
def DirectoryHandle.load (parse : String → Option Nat) (api : Api)
    (include_uploadable : Bool) : Nat → DirectoryHandle → LoadRes
  | 0, _ => .fuelOut
  | fuel + 1, dh =>
    let subdirsRes : LoadRes :=
      match api.subdirsResp dh.id with
      | .error e => .err e
      | .ok none => .ok []
      | .ok (some subdirs) =>
        combineLoads
          (((subdirs.filter
              (fun s => include_uploadable || !(s.allow_upload.getD false))).map
            (fun s => DirectoryHandle.mk s.id
              (dh.path ++ [sanitise_filename s.name])
              (s.allow_upload.getD false))).map
            (DirectoryHandle.load parse api include_uploadable fuel))
    let filesRes : LoadRes :=
      match api.filesResp dh.id with
      | .error e => .err e
      | .ok none => .ok []
      | .ok (some entries) =>
        match optionTraverse (fun s =>
            (parse_time parse s.last_updated_date).map (fun t =>
              File.mk s.id (dh.path ++ [fileLocalName dh.allow_upload s]) t)) entries with
        | none => .panicked
        | some fs => .ok fs
    joinLoads subdirsRes filesRes

/-- The `get_subdirs` closure of `load` (module.rs:205-232), with the recursive
calls taken at the given fuel. -/
def get_subdirs (parse : String → Option Nat) (api : Api)
    (include_uploadable : Bool) (fuel : Nat) (dh : DirectoryHandle) : LoadRes :=
  match api.subdirsResp dh.id with
  | .error e => .err e
  | .ok none => .ok []
  | .ok (some subdirs) =>
    combineLoads
      (((subdirs.filter
          (fun s => include_uploadable || !(s.allow_upload.getD false))).map
        (fun s => DirectoryHandle.mk s.id
          (dh.path ++ [sanitise_filename s.name])
          (s.allow_upload.getD false))).map
        (DirectoryHandle.load parse api include_uploadable fuel))

/-- The `get_files` closure of `load` (module.rs:234-272). -/
def get_files (parse : String → Option Nat) (api : Api)
    (dh : DirectoryHandle) : LoadRes :=
  match api.filesResp dh.id with
  | .error e => .err e
  | .ok none => .ok []
  | .ok (some entries) =>
    match optionTraverse (fun s =>
        (parse_time parse s.last_updated_date).map (fun t =>
          File.mk s.id (dh.path ++ [fileLocalName dh.allow_upload s]) t)) entries with
    | none => .panicked
    | some fs => .ok fs


/-!  ## Filesystem model for the conflict resolver and downloader  -/

/-- A destination path, modelled as parent directory components plus the
`file_stem`/`extension` view of the final component that
`File::prepare_path` manipulates (`Path::file_stem`, `Path::extension`,
`Path::with_file_name`, `Path::with_extension`). -/
structure RPath where
  dir : List String
  stem : String
  ext : Option String
deriving DecidableEq, Repr

/-- Data stored at a path: content bytes and the filesystem modification time
(`metadata.modified()`, which the source treats as fallible, hence
`Option`). -/
structure FileData where
  content : List Nat
  modified : Option Nat
deriving DecidableEq, Repr

/-- The error kinds `prepare_path` distinguishes on a failed metadata probe
besides `NotFound` (module.rs:313-318). -/
inductive MetaFailK where
  | permissionDenied
  | other
deriving DecidableEq, Repr

/-- Filesystem state: an association list of files plus fault oracles for the
I/O failures the source handles — `metaFail p` makes the metadata probe at `p`
fail with the given kind, and `renameFails src dst` makes `tokio::fs::rename`
fail. -/
structure FState where
  files : List (RPath × FileData)
  metaFail : RPath → Option MetaFailK
  renameFails : RPath → RPath → Bool

def FState.lookup (fs : FState) (p : RPath) : Option FileData :=
  (fs.files.find? (fun e => decide (e.1 = p))).map Prod.snd

/-- Create/truncate-write at `p` (a real filesystem has at most one entry per
path, so all prior entries at `p` are replaced). -/
def FState.set (fs : FState) (p : RPath) (d : FileData) : FState :=
  { fs with files := (p, d) :: fs.files.filter (fun e => decide (e.1 ≠ p)) }

/-- Delete the file at `p` (`tokio::fs::remove_file`). -/
def FState.eraseFile (fs : FState) (p : RPath) : FState :=
  { fs with files := fs.files.filter (fun e => decide (e.1 ≠ p)) }

/-- Move the file at `src` to `dst` (`tokio::fs::rename`), overwriting any
file at `dst`.  Whether the rename fails is decided by the `renameFails`
oracle at the call sites. -/
def FState.renameFile (fs : FState) (src dst : RPath) : FState :=
  match fs.lookup src with
  | some d => (fs.eraseFile src).set dst d
  | none => fs

/-- The result of `tokio::fs::metadata` as matched by `prepare_path`:
fault-oracle failures first, otherwise `NotFound` exactly when no file is
present. -/
inductive MetaProbe where
  | notFound
  | permissionDenied
  | other
  | found (d : FileData)
deriving DecidableEq, Repr

def FState.metadataProbe (fs : FState) (p : RPath) : MetaProbe :=
  match fs.metaFail p with
  | some .permissionDenied => .permissionDenied
  | some .other => .other
  | none =>
    match fs.lookup p with
    | none => .notFound
    | some d => .found d

/-- `Path::exists` (used by the rename loop, module.rs:354): true exactly when
the metadata probe succeeds. -/
def FState.pathExists (fs : FState) (p : RPath) : Bool :=
  match fs.metadataProbe p with
  | .found _ => true
  | _ => false

/-- `OverwriteMode` (module.rs:173-178). -/
inductive OverwriteMode where
  | Skip
  | Overwrite
  | Rename
deriving DecidableEq, Repr

/-- `OverwriteResult` (module.rs:180-186). -/
inductive OverwriteResult where
  | NewFile
  | AlreadyHave
  | Skipped
  | Overwritten
  | Renamed (renamed_path : RPath)
deriving DecidableEq, Repr

/-- The candidate renamed path for loop counter `i` (module.rs:346-360):
`i = 0` is the bare `new_stem`, `i = n + 1` appends `_` and the decimal
rendering of `n + 1`; the extension of the original path is re-attached when
present. -/
def renameCandidate (path : RPath) (newStem : String) : Nat → RPath
  | 0 => RPath.mk path.dir newStem path.ext
  | n + 1 => RPath.mk path.dir (newStem ++ "_" ++ natDec (n + 1)) path.ext

/-- The collision-avoidance loop of `prepare_path` (module.rs:345-360),
expressed with explicit fuel: starting at counter `start`, return the first
counter whose candidate path does not exist.  Fuel `fs.files.length + 1`
always suffices (pigeonhole over the finitely many existing files). -/
def findFreeCounter (fs : FState) (path : RPath) (newStem : String) :
    Nat → Nat → Nat
  | 0, start => start
  | fuel + 1, start =>
    if fs.pathExists (renameCandidate path newStem start) then
      findFreeCounter fs path newStem fuel (start + 1)
    else start

/-- Embeds `File::prepare_path` (module.rs:306-368).  The external chrono
conversion of the local modification time to a `YYYY-MM-DD` date string in the
local timezone is the `dateStr` oracle argument. -/
def File.prepare_path (dateStr : Nat → String) (f : File) (path : RPath)
    (overwrite : OverwriteMode) (fs : FState) :
    Except String (Bool × OverwriteResult) × FState :=
  match fs.metadataProbe path with
  | .notFound => (.ok (true, .NewFile), fs)
  | .permissionDenied => (.error "Permission denied when retrieving file metadata", fs)
  | .other => (.error "Unable to retrieve file metadata", fs)
  | .found fd =>
    match fd.modified with
    | none => (.error "File system does not support last modified time", fs)
    | some old_time =>
      if f.last_updated ≤ old_time then (.ok (false, .AlreadyHave), fs)
      else
        match overwrite with
        | .Skip => (.ok (false, .Skipped), fs)
        | .Overwrite => (.ok (true, .Overwritten), fs)
        | .Rename =>
          let new_stem := path.stem ++ "_autorename_" ++ dateStr old_time
          let i := findFreeCounter fs path new_stem (fs.files.length + 1) 0
          let renamed_path := renameCandidate path new_stem i
          if fs.renameFails path renamed_path then
            (.error "Failed renaming existing file", fs)
          else
            (.ok (true, .Renamed renamed_path), fs.renameFile path renamed_path)

/-!  ## Retrying stream downloader (module.rs:391-449)  -/

/-- `RetryableError` (module.rs:188-191). -/
inductive RetryableError where
  | Retry (e : String)
  | Fail (e : String)
deriving DecidableEq, Repr

/-- One event of a streamed response as seen by `download_chunks`: a chunk
arrives and the local write succeeds or fails, or the stream errors. -/
inductive ChunkEv where
  | chunk (bytes : List Nat) (writeOk : Bool)
  | streamErr
deriving DecidableEq, Repr

/-- Script for one iteration of the retry loop: whether creating the temp file
fails, whether the initial GET fails, the stream events, and whether the
cleanup `remove_file` fails (when reached). -/
structure Attempt where
  createFail : Bool
  connectFail : Bool
  events : List ChunkEv
  removeFail : Bool
deriving DecidableEq, Repr

/-- The chunk-copying loop of `download_chunks` (module.rs:438-447): returns
the tagged result together with the bytes written to the temp file so far. -/
def chunksGo : List ChunkEv → List Nat → Except RetryableError Unit × List Nat
  | [], acc => (.ok (), acc)
  | .chunk bytes writeOk :: rest, acc =>
    if writeOk then chunksGo rest (acc ++ bytes)
    else (.error (.Fail "Failed writing to disk"), acc)
  | .streamErr :: _, acc => (.error (.Retry "Failed during streaming"), acc)

/-- Embeds `File::download_chunks` (module.rs:427-449) for one scripted
attempt: a failed `send()` is a `Retry` with nothing written; otherwise the
chunk loop runs.  The second component is the final temp-file content. -/
def download_chunks (a : Attempt) : Except RetryableError Unit × List Nat :=
  if a.connectFail then (.error (.Retry "Failed during download"), [])
  else chunksGo a.events []

/-- Result of `infinite_retry_download`: success, an error surfaced to the
caller, or fuel exhaustion (the embedding artifact standing for the unbounded
loop still running). -/
inductive DlResult where
  | ok (fs : FState)
  | err (e : String) (fs : FState)
  | outOfFuel (fs : FState)

/-- Embeds `File::infinite_retry_download` (module.rs:391-425), one scripted
`Attempt` per loop iteration.  Each iteration: create/truncate the temp file
(failure aborts); run `download_chunks`; on success rename temp to destination
(failure aborts) and stop; on a tagged failure delete the temp file (failure
aborts), then `Retry` continues the loop and `Fail` surfaces the error. -/
def infinite_retry_download (dest temp : RPath) :
    List Attempt → FState → DlResult
  | [], fs => .outOfFuel fs
  | a :: rest, fs =>
    if a.createFail then .err "Unable to open temporary file" fs
    else
      let fs1 := fs.set temp (FileData.mk [] (some 0))
      match download_chunks a with
      | (.ok _, content) =>
        let fs2 := fs1.set temp (FileData.mk content (some 0))
        if fs.renameFails temp dest then .err "Unable to move temporary file" fs2
        else .ok (fs2.renameFile temp dest)
      | (.error e, content) =>
        let fs2 := fs1.set temp (FileData.mk content (some 0))
        if a.removeFail then .err "Unable to delete temporary file" fs2
        else
          let fs3 := fs2.eraseFile temp
          match e with
          | .Retry _ => infinite_retry_download dest temp rest fs3
          | .Fail msg => .err msg fs3

/-- Script for one `File::download` call: the result of `get_download_url`,
whether `create_dir_all` fails, and the per-iteration attempt scripts. -/
structure DlScript where
  urlResult : Except String Unit
  mkdirFail : Bool
  attempts : List Attempt

/-- Result of `File::download`. -/
inductive DownloadRes where
  | ok (r : OverwriteResult) (fs : FState)
  | err (e : String) (fs : FState)
  | outOfFuel (fs : FState)

/-- Embeds `File::download` (module.rs:370-389): `prepare_path` first; when it
asks for a download, resolve the download URL, ensure the parent directory
exists (directories are not tracked by the flat `FState`, so only the failure
case is modelled), then run the retry loop. -/
def File.download (dateStr : Nat → String) (f : File) (script : DlScript)
    (dest temp : RPath) (overwrite : OverwriteMode) (fs : FState) : DownloadRes :=
  match File.prepare_path dateStr f dest overwrite fs with
  | (.error e, fs1) => .err e fs1
  | (.ok (should_download, result), fs1) =>
    if should_download then
      match script.urlResult with
      | .error e => .err e fs1
      | .ok _ =>
        if script.mkdirFail then .err "Unable to create directory" fs1
        else
          match infinite_retry_download dest temp script.attempts fs1 with
          | .ok fs2 => .ok result fs2
          | .err e fs2 => .err e fs2
          | .outOfFuel fs2 => .outOfFuel fs2
    else .ok result fs1

/-!  ## Concurrent download scheduler path computation (cli.rs:190-224)  -/

/-- Embeds `make_temp_file_name` (cli.rs:218-224): the temp file name is the
real file name with `"~!"` pushed in front. -/
def make_temp_file_name (name : String) : String :=
  "~!" ++ name

/-- The temp path computed by `download_resources` (cli.rs:205-207):
`dest_path.join(file.path().parent()).join(make_temp_file_name(file_name))`,
with paths as component lists (the resolver always produces non-empty file
paths; the empty-path `unwrap` panic is out of scope and defaulted). -/
def temp_path (dest_path : List String) (file_path : List String) : List String :=
  dest_path ++ file_path.dropLast ++ [make_temp_file_name (file_path.getLastD "")]

/-- The real path computed by `download_resources` (cli.rs:208):
`dest_path.join(file.path())`. -/
def real_path (dest_path : List String) (file_path : List String) : List String :=
  dest_path ++ file_path

/-!  ## Helper lemmas  -/

theorem valLE_decDigitsLEAux (fuel : Nat) :
    ∀ n, n < fuel → valLE (decDigitsLEAux fuel n) = n := by
  induction fuel with
  | zero => intro n h; omega
  | succ fuel ih =>
    intro n h
    unfold decDigitsLEAux
    by_cases h10 : n < 10
    · simp [h10, valLE]
    · have hlt : n / 10 < fuel := by omega
      simp [h10, valLE, ih (n / 10) hlt, Nat.mod_add_div]

theorem valLE_decDigitsLE (n : Nat) : valLE (decDigitsLE n) = n :=
  valLE_decDigitsLEAux (n + 1) n (Nat.lt_succ_self n)

theorem decDigitsLEAux_lt_ten (fuel : Nat) :
    ∀ n d, d ∈ decDigitsLEAux fuel n → d < 10 := by
  induction fuel with
  | zero => intro n d h; simp [decDigitsLEAux] at h
  | succ fuel ih =>
    intro n d h
    unfold decDigitsLEAux at h
    by_cases h10 : n < 10
    · simp [h10] at h; omega
    · simp [h10] at h
      rcases h with h | h
      · omega
      · exact ih (n / 10) d h

theorem decDigitsLE_lt_ten (n d : Nat) (h : d ∈ decDigitsLE n) : d < 10 :=
  decDigitsLEAux_lt_ten (n + 1) n d h

theorem decDigitsLE_ne_nil (n : Nat) : decDigitsLE n ≠ [] := by
  unfold decDigitsLE decDigitsLEAux
  by_cases h10 : n < 10 <;> simp [h10]

theorem toNat_digitChar (d : Nat) (h : d < 10) :
    (Char.ofNat (48 + d)).toNat = 48 + d := by
  interval_cases d <;> decide

theorem natDec_injective : Function.Injective natDec := by
  intro a b h
  have hdata : ((decDigitsLE a).reverse.map (fun d => Char.ofNat (48 + d))) =
      ((decDigitsLE b).reverse.map (fun d => Char.ofNat (48 + d))) := by
    simpa [natDec] using congrArg String.data h
  have h2 := congrArg (List.map (fun c => c.toNat - 48)) hdata
  rw [List.map_map, List.map_map] at h2
  have ha : ((decDigitsLE a).reverse.map
      ((fun c => c.toNat - 48) ∘ (fun d => Char.ofNat (48 + d)))) =
      (decDigitsLE a).reverse := by
    refine (List.map_congr_left ?_).trans (List.map_id _)
    intro d hd
    have : d < 10 := decDigitsLE_lt_ten a d (List.mem_reverse.mp (by simpa using hd))
    simp [Function.comp, toNat_digitChar d this]
  have hb : ((decDigitsLE b).reverse.map
      ((fun c => c.toNat - 48) ∘ (fun d => Char.ofNat (48 + d)))) =
      (decDigitsLE b).reverse := by
    refine (List.map_congr_left ?_).trans (List.map_id _)
    intro d hd
    have : d < 10 := decDigitsLE_lt_ten b d (List.mem_reverse.mp (by simpa using hd))
    simp [Function.comp, toNat_digitChar d this]
  rw [ha, hb] at h2
  have hrev := List.reverse_injective h2
  have := congrArg valLE hrev
  rwa [valLE_decDigitsLE, valLE_decDigitsLE] at this

theorem natDec_length_pos (n : Nat) : 0 < (natDec n).length := by
  have := decDigitsLE_ne_nil n
  simp [natDec, String.length]
  exact List.length_pos.mpr this

theorem DirectoryHandle.load_succ (parse : String → Option Nat) (api : Api)
    (include_uploadable : Bool) (fuel : Nat) (dh : DirectoryHandle) :
    DirectoryHandle.load parse api include_uploadable (fuel + 1) dh =
      joinLoads (get_subdirs parse api include_uploadable fuel dh)
        (get_files parse api dh) := by
  rfl

theorem find?_filter_ne (l : List (RPath × FileData)) (p q : RPath) (h : q ≠ p) :
    (l.filter (fun e => decide (e.1 ≠ p))).find? (fun e => decide (e.1 = q)) =
      l.find? (fun e => decide (e.1 = q)) := by
  rw [List.find?_filter]
  congr 1
  funext a
  by_cases hp : a.1 = p
  · simp [hp]
    exact fun hq => h hq.symm
  · simp [hp]

theorem FState.lookup_set_self (fs : FState) (p : RPath) (d : FileData) :
    (fs.set p d).lookup p = some d := by
  simp [FState.set, FState.lookup, List.find?_cons]

theorem FState.lookup_set_ne (fs : FState) (p q : RPath) (d : FileData)
    (h : q ≠ p) : (fs.set p d).lookup q = fs.lookup q := by
  simp only [FState.set, FState.lookup, List.find?_cons]
  have hne : (decide ((p, d).1 = q)) = false := by
    simp
    exact fun hq => h hq.symm
  simp only [hne]
  rw [find?_filter_ne fs.files p q h]

theorem FState.lookup_erase_self (fs : FState) (p : RPath) :
    (fs.eraseFile p).lookup p = none := by
  simp only [FState.eraseFile, FState.lookup]
  rw [List.find?_filter]
  have hnone : (fs.files.find?
      (fun a => decide (decide (a.1 ≠ p) = true ∧ decide (a.1 = p) = true))) = none := by
    rw [List.find?_eq_none]
    intro a _
    by_cases hp : a.1 = p <;> simp [hp]
  rw [hnone]
  rfl

theorem FState.lookup_erase_ne (fs : FState) (p q : RPath) (h : q ≠ p) :
    (fs.eraseFile p).lookup q = fs.lookup q := by
  simp only [FState.eraseFile, FState.lookup]
  rw [find?_filter_ne fs.files p q h]

theorem FState.set_set (fs : FState) (p : RPath) (d1 d2 : FileData) :
    (fs.set p d1).set p d2 = fs.set p d2 := by
  cases fs
  simp [FState.set, List.filter_cons, List.filter_filter]

theorem FState.erase_set (fs : FState) (p : RPath) (d : FileData) :
    (fs.set p d).eraseFile p = fs.eraseFile p := by
  cases fs
  simp [FState.set, FState.eraseFile, List.filter_cons, List.filter_filter]

theorem FState.erase_erase (fs : FState) (p : RPath) :
    (fs.eraseFile p).eraseFile p = fs.eraseFile p := by
  cases fs
  simp [FState.eraseFile, List.filter_filter]

theorem FState.metaFail_set (fs : FState) (p : RPath) (d : FileData) :
    (fs.set p d).metaFail = fs.metaFail := rfl

theorem FState.metaFail_erase (fs : FState) (p : RPath) :
    (fs.eraseFile p).metaFail = fs.metaFail := rfl

theorem FState.renameFails_set (fs : FState) (p : RPath) (d : FileData) :
    (fs.set p d).renameFails = fs.renameFails := rfl

theorem FState.renameFails_erase (fs : FState) (p : RPath) :
    (fs.eraseFile p).renameFails = fs.renameFails := rfl

theorem string_append_right_inj (s t u : String) (h : s ++ t = s ++ u) : t = u := by
  have hd := congrArg String.data h
  rw [String.data_append, String.data_append] at hd
  exact String.ext (List.append_cancel_left hd)

theorem renameCandidate_injective (path : RPath) (newStem : String) :
    Function.Injective (renameCandidate path newStem) := by
  intro i j h
  match i, j with
  | 0, 0 => rfl
  | 0, j + 1 =>
    exfalso
    have hstem : newStem = newStem ++ "_" ++ natDec (j + 1) := congrArg RPath.stem h
    have hlen := congrArg String.length hstem
    rw [String.length_append, String.length_append] at hlen
    have := natDec_length_pos (j + 1)
    omega
  | i + 1, 0 =>
    exfalso
    have hstem : newStem ++ "_" ++ natDec (i + 1) = newStem := congrArg RPath.stem h
    have hlen := congrArg String.length hstem
    rw [String.length_append, String.length_append] at hlen
    have := natDec_length_pos (i + 1)
    omega
  | i + 1, j + 1 =>
    have hstem : newStem ++ "_" ++ natDec (i + 1) = newStem ++ "_" ++ natDec (j + 1) :=
      congrArg RPath.stem h
    rw [String.append_assoc, String.append_assoc] at hstem
    have h2 := string_append_right_inj _ _ _ hstem
    have h3 := string_append_right_inj "_" _ _ h2
    have := natDec_injective h3
    omega

theorem lookup_isSome_mem_keys (fs : FState) (q : RPath) (d : FileData)
    (h : fs.lookup q = some d) : q ∈ fs.files.map Prod.fst := by
  simp only [FState.lookup] at h
  rcases Option.map_eq_some'.mp h with ⟨e, he, _⟩
  have hmem := List.mem_of_find?_eq_some he
  have hpred := List.find?_some he
  have : e.1 = q := of_decide_eq_true hpred
  exact this ▸ List.mem_map_of_mem Prod.fst hmem

theorem exists_free_candidate (fs : FState) (path : RPath) (newStem : String)
    (hmf : ∀ q, fs.metaFail q = none) :
    ∃ j, j < fs.files.length + 1 ∧
      fs.pathExists (renameCandidate path newStem j) = false := by
  by_contra hcon
  push_neg at hcon
  have hocc : ∀ j, j < fs.files.length + 1 →
      renameCandidate path newStem j ∈ fs.files.map Prod.fst := by
    intro j hj
    have hex := hcon j hj
    have : fs.pathExists (renameCandidate path newStem j) = true := by
      cases hpe : fs.pathExists (renameCandidate path newStem j)
      · exact absurd hpe hex
      · rfl
    simp only [FState.pathExists, FState.metadataProbe,
      hmf (renameCandidate path newStem j)] at this
    cases hl : fs.lookup (renameCandidate path newStem j) with
    | none => rw [hl] at this; simp at this
    | some d => exact lookup_isSome_mem_keys fs _ d hl
  have hsub : ((List.range (fs.files.length + 1)).map
      (renameCandidate path newStem)) ⊆ fs.files.map Prod.fst := by
    intro x hx
    rcases List.mem_map.mp hx with ⟨j, hj, rfl⟩
    exact hocc j (List.mem_range.mp hj)
  have hnd : ((List.range (fs.files.length + 1)).map
      (renameCandidate path newStem)).Nodup :=
    (List.nodup_range _).map (renameCandidate_injective path newStem)
  have hsp := List.subperm_of_subset hnd hsub
  have hle := hsp.length_le
  simp [List.length_map, List.length_range] at hle

theorem findFreeCounter_spec (fs : FState) (path : RPath) (newStem : String) :
    ∀ fuel start,
      (∃ j, start ≤ j ∧ j < start + fuel ∧
        fs.pathExists (renameCandidate path newStem j) = false) →
      fs.pathExists
          (renameCandidate path newStem (findFreeCounter fs path newStem fuel start)) =
          false ∧
      start ≤ findFreeCounter fs path newStem fuel start ∧
      ∀ k, start ≤ k → k < findFreeCounter fs path newStem fuel start →
        fs.pathExists (renameCandidate path newStem k) = true := by
  intro fuel
  induction fuel with
  | zero =>
    intro start h
    rcases h with ⟨j, h1, h2, _⟩
    omega
  | succ fuel ih =>
    intro start h
    unfold findFreeCounter
    cases hocc : fs.pathExists (renameCandidate path newStem start) with
    | false =>
      rw [if_neg Bool.false_ne_true]
      exact ⟨hocc, Nat.le_refl _, fun k hk1 hk2 => absurd hk1 (by omega)⟩
    | true =>
      rw [if_pos rfl]
      have hex : ∃ j, start + 1 ≤ j ∧ j < (start + 1) + fuel ∧
          fs.pathExists (renameCandidate path newStem j) = false := by
        rcases h with ⟨j, h1, h2, h3⟩
        refine ⟨j, ?_, by omega, h3⟩
        rcases Nat.eq_or_lt_of_le h1 with heq | hlt
        · exfalso; rw [← heq] at h3; rw [hocc] at h3; exact Bool.noConfusion h3
        · omega
      rcases ih (start + 1) hex with ⟨hfree, hge, hmin⟩
      refine ⟨hfree, by omega, ?_⟩
      intro k hk1 hk2
      rcases Nat.eq_or_lt_of_le hk1 with heq | hlt
      · rw [← heq]; exact hocc
      · exact hmin k (by omega) hk2

theorem renameCandidate_ne_path (p : RPath) (d : String) (i : Nat) :
    renameCandidate p (p.stem ++ "_autorename_" ++ d) i ≠ p := by
  intro h
  have hstem := congrArg RPath.stem h
  have h12 : ("_autorename_" : String).length = 12 := rfl
  cases i with
  | zero =>
    simp only [renameCandidate] at hstem
    have hlen := congrArg String.length hstem
    rw [String.length_append, String.length_append] at hlen
    omega
  | succ i =>
    simp only [renameCandidate] at hstem
    have hlen := congrArg String.length hstem
    rw [String.length_append, String.length_append, String.length_append,
      String.length_append] at hlen
    have := natDec_length_pos (i + 1)
    omega

/-- Claim C1: `File::prepare_path` realises the §4.3 decision table exactly: no
local file gives `(true, NewFile)`; an existing local file at least as new as
the remote gives `(false, AlreadyHave)`; an existing stale local file gives
`(false, Skipped)` under `Skip`, `(true, Overwritten)` under `Overwrite`, and
`(true, Renamed renamed_path)` (with the computed collision-free path) under
`Rename`, the filesystem being left unchanged except by the `Rename` row's
rename. -/
theorem prepare_path_decision_table (dateStr : Nat → String) (f : File)
    (p : RPath) (fs : FState) (mode : OverwriteMode)
    (hmeta : fs.metaFail p = none) :
    (fs.lookup p = none →
      File.prepare_path dateStr f p mode fs = (.ok (true, .NewFile), fs)) ∧
    (∀ fd t, fs.lookup p = some fd → fd.modified = some t →
      f.last_updated ≤ t →
      File.prepare_path dateStr f p mode fs = (.ok (false, .AlreadyHave), fs)) ∧
    (∀ fd t, fs.lookup p = some fd → fd.modified = some t →
      t < f.last_updated →
      (mode = .Skip →
        File.prepare_path dateStr f p mode fs = (.ok (false, .Skipped), fs)) ∧
      (mode = .Overwrite →
        File.prepare_path dateStr f p mode fs = (.ok (true, .Overwritten), fs)) ∧
      (mode = .Rename → (∀ q, fs.renameFails p q = false) →
        File.prepare_path dateStr f p mode fs =
          (.ok (true, .Renamed (renameCandidate p
              (p.stem ++ "_autorename_" ++ dateStr t)
              (findFreeCounter fs p (p.stem ++ "_autorename_" ++ dateStr t)
                (fs.files.length + 1) 0))),
            fs.renameFile p (renameCandidate p
              (p.stem ++ "_autorename_" ++ dateStr t)
              (findFreeCounter fs p (p.stem ++ "_autorename_" ++ dateStr t)
                (fs.files.length + 1) 0))))) := by
  refine ⟨?_, ?_, ?_⟩
  · intro h
    simp [File.prepare_path, FState.metadataProbe, hmeta, h]
  · intro fd t h1 h2 h3
    simp [File.prepare_path, FState.metadataProbe, hmeta, h1, h2, h3]
  · intro fd t h1 h2 h3
    have hn : ¬ (f.last_updated ≤ t) := by omega
    refine ⟨?_, ?_, ?_⟩
    · intro hm; subst hm
      simp [File.prepare_path, FState.metadataProbe, hmeta, h1, h2, hn]
    · intro hm; subst hm
      simp [File.prepare_path, FState.metadataProbe, hmeta, h1, h2, hn]
    · intro hm hren; subst hm
      simp [File.prepare_path, FState.metadataProbe, hmeta, h1, h2, hn, hren]

/-- Witness for C1: a concrete stale local file under `Skip` yields
`(false, Skipped)` with the filesystem untouched, by the decision-table
theorem. -/
theorem prepare_path_decision_table_witness :
    File.prepare_path natDec (File.mk "id1" ["c", "a.pdf"] 9)
        (RPath.mk ["c"] "a" (some "pdf")) .Skip
        (FState.mk [(RPath.mk ["c"] "a" (some "pdf"), FileData.mk [1, 2] (some 5))]
          (fun _ => none) (fun _ _ => false)) =
      (.ok (false, .Skipped),
        FState.mk [(RPath.mk ["c"] "a" (some "pdf"), FileData.mk [1, 2] (some 5))]
          (fun _ => none) (fun _ _ => false)) :=
  ((prepare_path_decision_table natDec (File.mk "id1" ["c", "a.pdf"] 9)
      (RPath.mk ["c"] "a" (some "pdf"))
      (FState.mk [(RPath.mk ["c"] "a" (some "pdf"), FileData.mk [1, 2] (some 5))]
        (fun _ => none) (fun _ _ => false)) .Skip rfl).2.2
    (FileData.mk [1, 2] (some 5)) 5 rfl rfl (by decide)).1 rfl

/-- Claim C6: in `Rename` mode with a stale local file, the new path appends
`_autorename_` plus the date string of the *local* file's modification time to
the file stem, then `_N` for the least `N` making the path unoccupied; the
original file is renamed (moved, not copied) to that path as part of
`prepare_path` — i.e. before any download proceeds — and a failing rename is a
hard error for the resource. -/
theorem prepare_path_rename_spec (dateStr : Nat → String) (f : File)
    (p : RPath) (fs : FState) (fd : FileData) (t : Nat)
    (hmf : ∀ q, fs.metaFail q = none)
    (hlook : fs.lookup p = some fd) (hmod : fd.modified = some t)
    (hstale : t < f.last_updated) :
    (fs.lookup (renameCandidate p (p.stem ++ "_autorename_" ++ dateStr t)
        (findFreeCounter fs p (p.stem ++ "_autorename_" ++ dateStr t)
          (fs.files.length + 1) 0)) = none) ∧
    (∀ k, k < findFreeCounter fs p (p.stem ++ "_autorename_" ++ dateStr t)
        (fs.files.length + 1) 0 →
      fs.pathExists (renameCandidate p (p.stem ++ "_autorename_" ++ dateStr t) k)
        = true) ∧
    (fs.renameFails p (renameCandidate p (p.stem ++ "_autorename_" ++ dateStr t)
        (findFreeCounter fs p (p.stem ++ "_autorename_" ++ dateStr t)
          (fs.files.length + 1) 0)) = false →
      File.prepare_path dateStr f p .Rename fs =
        (.ok (true, .Renamed (renameCandidate p
            (p.stem ++ "_autorename_" ++ dateStr t)
            (findFreeCounter fs p (p.stem ++ "_autorename_" ++ dateStr t)
              (fs.files.length + 1) 0))),
          fs.renameFile p (renameCandidate p
            (p.stem ++ "_autorename_" ++ dateStr t)
            (findFreeCounter fs p (p.stem ++ "_autorename_" ++ dateStr t)
              (fs.files.length + 1) 0))) ∧
      (fs.renameFile p (renameCandidate p (p.stem ++ "_autorename_" ++ dateStr t)
          (findFreeCounter fs p (p.stem ++ "_autorename_" ++ dateStr t)
            (fs.files.length + 1) 0))).lookup p = none ∧
      (fs.renameFile p (renameCandidate p (p.stem ++ "_autorename_" ++ dateStr t)
          (findFreeCounter fs p (p.stem ++ "_autorename_" ++ dateStr t)
            (fs.files.length + 1) 0))).lookup
        (renameCandidate p (p.stem ++ "_autorename_" ++ dateStr t)
          (findFreeCounter fs p (p.stem ++ "_autorename_" ++ dateStr t)
            (fs.files.length + 1) 0)) = some fd) ∧
    (fs.renameFails p (renameCandidate p (p.stem ++ "_autorename_" ++ dateStr t)
        (findFreeCounter fs p (p.stem ++ "_autorename_" ++ dateStr t)
          (fs.files.length + 1) 0)) = true →
      File.prepare_path dateStr f p .Rename fs =
        (.error "Failed renaming existing file", fs)) := by
  set newStem := p.stem ++ "_autorename_" ++ dateStr t with hns
  set i := findFreeCounter fs p newStem (fs.files.length + 1) 0 with hi
  set rp := renameCandidate p newStem i with hrp
  have hspec := findFreeCounter_spec fs p newStem (fs.files.length + 1) 0
    (by
      rcases exists_free_candidate fs p newStem hmf with ⟨j, hj1, hj2⟩
      exact ⟨j, Nat.zero_le j, by omega, hj2⟩)
  rcases hspec with ⟨hfree, _, hmin⟩
  have hlookrp : fs.lookup rp = none := by
    have := hfree
    simp only [FState.pathExists, FState.metadataProbe, hmf rp] at this
    cases hl : fs.lookup rp with
    | none => rfl
    | some d => rw [hl] at this; simp at this
  have hrpne : rp ≠ p := renameCandidate_ne_path p (dateStr t) i
  have hn : ¬ (f.last_updated ≤ t) := by omega
  refine ⟨hlookrp, ?_, ?_, ?_⟩
  · intro k hk
    exact hmin k (Nat.zero_le k) hk
  · intro hren
    refine ⟨?_, ?_, ?_⟩
    · simp [File.prepare_path, FState.metadataProbe, hmf p, hlook, hmod, hn, hren]
    · simp only [FState.renameFile, hlook]
      rw [FState.lookup_set_ne _ _ _ _ (Ne.symm hrpne)]
      exact FState.lookup_erase_self fs p
    · simp only [FState.renameFile, hlook]
      exact FState.lookup_set_self _ rp fd
  · intro hren
    simp [File.prepare_path, FState.metadataProbe, hmf p, hlook, hmod, hn, hren]

/-- Witness for C6: a concrete stale file `a` whose first autorename
candidate `a_autorename_5` is already occupied is moved to
`a_autorename_5_1`, by the rename-behavior theorem. -/
theorem prepare_path_rename_spec_witness :
    File.prepare_path natDec (File.mk "idr" ["a"] 9) (RPath.mk [] "a" none)
        .Rename
        (FState.mk [(RPath.mk [] "a" none, FileData.mk [9, 9] (some 5)),
            (RPath.mk [] "a_autorename_5" none, FileData.mk [] (some 1))]
          (fun _ => none) (fun _ _ => false)) =
      (.ok (true, .Renamed (RPath.mk [] "a_autorename_5_1" none)),
        FState.mk
          [(RPath.mk [] "a_autorename_5_1" none, FileData.mk [9, 9] (some 5)),
            (RPath.mk [] "a_autorename_5" none, FileData.mk [] (some 1))]
          (fun _ => none) (fun _ _ => false)) :=
  ((prepare_path_rename_spec natDec (File.mk "idr" ["a"] 9) (RPath.mk [] "a" none)
      (FState.mk [(RPath.mk [] "a" none, FileData.mk [9, 9] (some 5)),
          (RPath.mk [] "a_autorename_5" none, FileData.mk [] (some 1))]
        (fun _ => none) (fun _ _ => false))
      (FileData.mk [9, 9] (some 5)) 5
      (fun _ => rfl) rfl rfl (by decide)).2.2.1 rfl).1

/-- Claim C7: `sanitise_filename` is a total deterministic function (it is a plain
Lean function) whose output never contains the path separator or the null
byte. -/
theorem sanitise_filename_safe (name : String) :
    '/' ∉ (sanitise_filename name).data ∧
      Char.ofNat 0 ∉ (sanitise_filename name).data := by
  have key : ∀ c : Char,
      (if (if c = Char.ofNat 0 then '-' else c) = '/' then '-'
        else (if c = Char.ofNat 0 then '-' else c)) ≠ '/' ∧
      (if (if c = Char.ofNat 0 then '-' else c) = '/' then '-'
        else (if c = Char.ofNat 0 then '-' else c)) ≠ Char.ofNat 0 := by
    intro c
    by_cases h0 : c = Char.ofNat 0
    · simp only [h0]
      decide
    · simp only [if_neg h0]
      by_cases hs : c = '/'
      · simp only [if_pos hs]
        decide
      · simp only [if_neg hs]
        exact ⟨hs, h0⟩
  constructor
  · intro hmem
    simp only [sanitise_filename, List.map_map] at hmem
    rcases List.mem_map.mp hmem with ⟨c, _, hc⟩
    simp only [Function.comp_apply] at hc
    exact (key c).1 hc
  · intro hmem
    simp only [sanitise_filename, List.map_map] at hmem
    rcases List.mem_map.mp hmem with ⟨c, _, hc⟩
    simp only [Function.comp_apply] at hc
    exact (key c).2 hc

theorem dl_step_create_fail (dest temp : RPath) (a : Attempt) (rest : List Attempt)
    (fs : FState) (hcf : a.createFail = true) :
    infinite_retry_download dest temp (a :: rest) fs =
      .err "Unable to open temporary file" fs := by
  simp [infinite_retry_download, hcf]

theorem dl_step_success (dest temp : RPath) (a : Attempt) (rest : List Attempt)
    (fs : FState) (u : Unit) (c : List Nat)
    (hcf : a.createFail = false) (hdc : download_chunks a = (.ok u, c))
    (hren : fs.renameFails temp dest = false) :
    infinite_retry_download dest temp (a :: rest) fs =
      .ok ((fs.set temp (FileData.mk c (some 0))).renameFile temp dest) := by
  simp only [infinite_retry_download, hcf, Bool.false_eq_true, if_false, hdc]
  rw [FState.set_set]
  have hren2 : (fs.set temp (FileData.mk [] (some 0))).renameFails temp dest = false := hren
  simp only [FState.renameFails_set, hren, Bool.false_eq_true, if_false]

theorem dl_step_rename_fail (dest temp : RPath) (a : Attempt) (rest : List Attempt)
    (fs : FState) (u : Unit) (c : List Nat)
    (hcf : a.createFail = false) (hdc : download_chunks a = (.ok u, c))
    (hren : fs.renameFails temp dest = true) :
    infinite_retry_download dest temp (a :: rest) fs =
      .err "Unable to move temporary file" (fs.set temp (FileData.mk c (some 0))) := by
  simp only [infinite_retry_download, hcf, Bool.false_eq_true, if_false, hdc]
  rw [FState.set_set]
  simp only [FState.renameFails_set, hren, if_true]

theorem dl_step_retry (dest temp : RPath) (a : Attempt) (rest : List Attempt)
    (fs : FState) (e : String) (c : List Nat)
    (hcf : a.createFail = false)
    (hdc : download_chunks a = (.error (.Retry e), c))
    (hrm : a.removeFail = false) :
    infinite_retry_download dest temp (a :: rest) fs =
      infinite_retry_download dest temp rest (fs.eraseFile temp) := by
  simp only [infinite_retry_download, hcf, Bool.false_eq_true, if_false, hdc,
    hrm]
  rw [FState.set_set, FState.erase_set]

theorem dl_step_fail (dest temp : RPath) (a : Attempt) (rest : List Attempt)
    (fs : FState) (msg : String) (c : List Nat)
    (hcf : a.createFail = false)
    (hdc : download_chunks a = (.error (.Fail msg), c))
    (hrm : a.removeFail = false) :
    infinite_retry_download dest temp (a :: rest) fs =
      .err msg (fs.eraseFile temp) := by
  simp only [infinite_retry_download, hcf, Bool.false_eq_true, if_false, hdc,
    hrm]
  rw [FState.set_set, FState.erase_set]

theorem dl_step_remove_fail (dest temp : RPath) (a : Attempt) (rest : List Attempt)
    (fs : FState) (e : RetryableError) (c : List Nat)
    (hcf : a.createFail = false)
    (hdc : download_chunks a = (.error e, c))
    (hrm : a.removeFail = true) :
    infinite_retry_download dest temp (a :: rest) fs =
      .err "Unable to delete temporary file" (fs.set temp (FileData.mk c (some 0))) := by
  simp only [infinite_retry_download, hcf, Bool.false_eq_true, if_false, hdc,
    hrm]
  rw [FState.set_set]
  simp

theorem renameFile_set_lookup (fs : FState) (temp dest : RPath) (d : FileData)
    (hne : temp ≠ dest) :
    ((fs.set temp d).renameFile temp dest).lookup dest = some d ∧
    ((fs.set temp d).renameFile temp dest).lookup temp = none := by
  constructor
  · simp only [FState.renameFile, FState.lookup_set_self, FState.erase_set]
  · simp only [FState.renameFile, FState.lookup_set_self, FState.erase_set]
    rw [FState.lookup_set_ne _ _ _ _ hne]
    exact FState.lookup_erase_self fs temp

/-- Claim C2: when every iteration's cleanup I/O (temp create, temp delete) and the
final rename are fault-free, a download whose streaming transfer fails leaves
the destination exactly as it was (absent or prior content, never partial) and
removes the temp file; and whenever the loop does succeed, the destination
holds the complete streamed content of a successful attempt — i.e. the
destination is only ever written by renaming a completed temp file. -/
theorem infinite_retry_download_atomic (dest temp : RPath)
    (attempts : List Attempt) (fs : FState) (hne : temp ≠ dest)
    (hclean : ∀ a ∈ attempts, a.createFail = false ∧ a.removeFail = false)
    (hren : fs.renameFails temp dest = false) :
    (∀ e fs2, infinite_retry_download dest temp attempts fs = .err e fs2 →
      fs2.lookup dest = fs.lookup dest ∧ fs2.lookup temp = none) ∧
    (∀ fs2, infinite_retry_download dest temp attempts fs = .outOfFuel fs2 →
      fs2.lookup dest = fs.lookup dest) ∧
    (∀ fs2, infinite_retry_download dest temp attempts fs = .ok fs2 →
      ∃ a, a ∈ attempts ∧ (download_chunks a).1 = .ok () ∧
        fs2.lookup dest = some (FileData.mk (download_chunks a).2 (some 0)) ∧
        fs2.lookup temp = none) := by
  induction attempts generalizing fs with
  | nil =>
    refine ⟨?_, ?_, ?_⟩
    · intro e fs2 h
      exact DlResult.noConfusion h
    · intro fs2 h
      injection h with h1
      rw [← h1]
    · intro fs2 h
      exact DlResult.noConfusion h
  | cons a rest ih =>
    have hca := (hclean a (List.mem_cons_self a rest)).1
    have hcr := (hclean a (List.mem_cons_self a rest)).2
    have hclean2 : ∀ b ∈ rest, b.createFail = false ∧ b.removeFail = false :=
      fun b hb => hclean b (List.mem_cons_of_mem a hb)
    rcases hdc : download_chunks a with ⟨r, content⟩
    cases r with
    | ok u =>
      have hstep := dl_step_success dest temp a rest fs u content hca hdc hren
      refine ⟨?_, ?_, ?_⟩
      · intro e fs2 h
        rw [hstep] at h
        exact DlResult.noConfusion h
      · intro fs2 h
        rw [hstep] at h
        exact DlResult.noConfusion h
      · intro fs2 h
        rw [hstep] at h
        injection h with h1
        rcases renameFile_set_lookup fs temp dest (FileData.mk content (some 0)) hne
          with ⟨hd, ht⟩
        refine ⟨a, List.mem_cons_self a rest, ?_, ?_, ?_⟩
        · rw [hdc]
        · rw [← h1, hdc]
          exact hd
        · rw [← h1]
          exact ht
    | error e0 =>
      cases e0 with
      | Retry emsg =>
        have hstep := dl_step_retry dest temp a rest fs emsg content hca hdc hcr
        have hren2 : (fs.eraseFile temp).renameFails temp dest = false := hren
        have hdl : (fs.eraseFile temp).lookup dest = fs.lookup dest :=
          FState.lookup_erase_ne fs temp dest (Ne.symm hne)
        rcases ih (fs.eraseFile temp) hclean2 hren2 with ⟨ih1, ih2, ih3⟩
        refine ⟨?_, ?_, ?_⟩
        · intro e fs2 h
          rw [hstep] at h
          rcases ih1 e fs2 h with ⟨h1, h2⟩
          exact ⟨h1.trans hdl, h2⟩
        · intro fs2 h
          rw [hstep] at h
          exact (ih2 fs2 h).trans hdl
        · intro fs2 h
          rw [hstep] at h
          rcases ih3 fs2 h with ⟨b, hb, h1, h2, h3⟩
          exact ⟨b, List.mem_cons_of_mem a hb, h1, h2, h3⟩
      | Fail emsg =>
        have hstep := dl_step_fail dest temp a rest fs emsg content hca hdc hcr
        refine ⟨?_, ?_, ?_⟩
        · intro e fs2 h
          rw [hstep] at h
          injection h with h1 h2
          rw [← h2]
          exact ⟨FState.lookup_erase_ne fs temp dest (Ne.symm hne),
            FState.lookup_erase_self fs temp⟩
        · intro fs2 h
          rw [hstep] at h
          exact DlResult.noConfusion h
        · intro fs2 h
          rw [hstep] at h
          exact DlResult.noConfusion h

/-- Witness for C2: a concrete one-attempt download whose disk write fails
surfaces "Failed writing to disk", leaves the prior destination content
intact, and removes the temp file. -/
theorem infinite_retry_download_atomic_witness :
    infinite_retry_download (RPath.mk ["d"] "f" none) (RPath.mk ["d"] "~!f" none)
        [Attempt.mk false false [ChunkEv.chunk [5] false] false]
        (FState.mk [(RPath.mk ["d"] "f" none, FileData.mk [1] (some 3))]
          (fun _ => none) (fun _ _ => false)) =
      .err "Failed writing to disk"
        ((FState.mk [(RPath.mk ["d"] "f" none, FileData.mk [1] (some 3))]
          (fun _ => none) (fun _ _ => false)).eraseFile (RPath.mk ["d"] "~!f" none)) ∧
    ((FState.mk [(RPath.mk ["d"] "f" none, FileData.mk [1] (some 3))]
        (fun _ => none) (fun _ _ => false)).eraseFile
        (RPath.mk ["d"] "~!f" none)).lookup (RPath.mk ["d"] "f" none) =
      (FState.mk [(RPath.mk ["d"] "f" none, FileData.mk [1] (some 3))]
        (fun _ => none) (fun _ _ => false)).lookup (RPath.mk ["d"] "f" none) ∧
    ((FState.mk [(RPath.mk ["d"] "f" none, FileData.mk [1] (some 3))]
        (fun _ => none) (fun _ _ => false)).eraseFile
        (RPath.mk ["d"] "~!f" none)).lookup (RPath.mk ["d"] "~!f" none) = none :=
  ⟨rfl,
    (infinite_retry_download_atomic (RPath.mk ["d"] "f" none)
      (RPath.mk ["d"] "~!f" none)
      [Attempt.mk false false [ChunkEv.chunk [5] false] false]
      (FState.mk [(RPath.mk ["d"] "f" none, FileData.mk [1] (some 3))]
        (fun _ => none) (fun _ _ => false))
      (by decide) (by decide) rfl).1 _ _ rfl⟩

theorem dl_ok_inv (dest temp : RPath) (hne : temp ≠ dest) :
    ∀ (attempts : List Attempt) (fs fs2 : FState),
      infinite_retry_download dest temp attempts fs = .ok fs2 →
      fs2.lookup temp = none ∧ ∃ d, fs2.lookup dest = some d := by
  intro attempts
  induction attempts with
  | nil =>
    intro fs fs2 h
    exact DlResult.noConfusion h
  | cons a rest ih =>
    intro fs fs2 h
    cases hcf : a.createFail with
    | true =>
      rw [dl_step_create_fail dest temp a rest fs hcf] at h
      exact DlResult.noConfusion h
    | false =>
      rcases hdc : download_chunks a with ⟨r, content⟩
      cases r with
      | ok u =>
        cases hren : fs.renameFails temp dest with
        | false =>
          rw [dl_step_success dest temp a rest fs u content hcf hdc hren] at h
          injection h with h1
          rcases renameFile_set_lookup fs temp dest (FileData.mk content (some 0))
            hne with ⟨hd, ht⟩
          rw [← h1]
          exact ⟨ht, ⟨_, hd⟩⟩
        | true =>
          rw [dl_step_rename_fail dest temp a rest fs u content hcf hdc hren] at h
          exact DlResult.noConfusion h
      | error e0 =>
        cases hrm : a.removeFail with
        | false =>
          cases e0 with
          | Retry emsg =>
            rw [dl_step_retry dest temp a rest fs emsg content hcf hdc hrm] at h
            exact ih (fs.eraseFile temp) fs2 h
          | Fail msg =>
            rw [dl_step_fail dest temp a rest fs msg content hcf hdc hrm] at h
            exact DlResult.noConfusion h
        | true =>
          rw [dl_step_remove_fail dest temp a rest fs e0 content hcf hdc hrm] at h
          exact DlResult.noConfusion h

/-- Claim C3: the retry loop is driven solely by the `Retry`/`Fail` tag: a
`Retry`-tagged failure deletes the temp file and restarts the loop (and does
so for arbitrarily many consecutive `Retry` failures — no retry limit), a
`Fail`-tagged failure deletes the temp file and returns the error to the
caller, and the loop returns success only in a state where the temp file has
been renamed onto the destination. -/
theorem infinite_retry_download_tag_driven (dest temp : RPath) :
    (∀ (a : Attempt) rest e c (fs : FState), a.createFail = false →
      a.removeFail = false → download_chunks a = (.error (.Retry e), c) →
      infinite_retry_download dest temp (a :: rest) fs =
        infinite_retry_download dest temp rest (fs.eraseFile temp)) ∧
    (∀ (a : Attempt) rest e c n (fs : FState), a.createFail = false →
      a.removeFail = false → download_chunks a = (.error (.Retry e), c) →
      infinite_retry_download dest temp (List.replicate (n + 1) a ++ rest) fs =
        infinite_retry_download dest temp rest (fs.eraseFile temp)) ∧
    (∀ (a : Attempt) rest msg c (fs : FState), a.createFail = false →
      a.removeFail = false → download_chunks a = (.error (.Fail msg), c) →
      infinite_retry_download dest temp (a :: rest) fs =
        .err msg (fs.eraseFile temp)) ∧
    (∀ (attempts : List Attempt) (fs fs2 : FState), temp ≠ dest →
      infinite_retry_download dest temp attempts fs = .ok fs2 →
      fs2.lookup temp = none ∧ ∃ d, fs2.lookup dest = some d) := by
  refine ⟨?_, ?_, ?_, ?_⟩
  · intro a rest e c fs hcf hrm hdc
    exact dl_step_retry dest temp a rest fs e c hcf hdc hrm
  · intro a rest e c n
    induction n with
    | zero =>
      intro fs hcf hrm hdc
      simp only [List.replicate, List.cons_append, List.nil_append]
      exact dl_step_retry dest temp a rest fs e c hcf hdc hrm
    | succ n ihn =>
      intro fs hcf hrm hdc
      have hr1 : List.replicate (n + 1 + 1) a ++ rest =
          a :: (List.replicate (n + 1) a ++ rest) := by
        simp [List.replicate_succ]
      rw [hr1, dl_step_retry dest temp a _ fs e c hcf hdc hrm,
        ihn (fs.eraseFile temp) hcf hrm hdc, FState.erase_erase]
  · intro a rest msg c fs hcf hrm hdc
    exact dl_step_fail dest temp a rest fs msg c hcf hdc hrm
  · intro attempts fs fs2 hne h
    exact dl_ok_inv dest temp hne attempts fs fs2 h

/-- Witness for C3: concretely, two consecutive `Retry` stream failures leave
the loop still running on an empty remaining script (unbounded retry, temp
deleted), and a `Fail` write failure returns its error immediately. -/
theorem infinite_retry_download_tag_driven_witness :
    infinite_retry_download (RPath.mk [] "f" none) (RPath.mk [] "~!f" none)
        (List.replicate 2 (Attempt.mk false false [ChunkEv.streamErr] false) ++ [])
        (FState.mk [] (fun _ => none) (fun _ _ => false)) =
      .outOfFuel ((FState.mk [] (fun _ => none)
        (fun _ _ => false)).eraseFile (RPath.mk [] "~!f" none)) ∧
    infinite_retry_download (RPath.mk [] "f" none) (RPath.mk [] "~!f" none)
        [Attempt.mk false false [ChunkEv.chunk [7] false] false]
        (FState.mk [] (fun _ => none) (fun _ _ => false)) =
      .err "Failed writing to disk" ((FState.mk [] (fun _ => none)
        (fun _ _ => false)).eraseFile (RPath.mk [] "~!f" none)) :=
  ⟨((infinite_retry_download_tag_driven (RPath.mk [] "f" none)
      (RPath.mk [] "~!f" none)).2.1
      (Attempt.mk false false [ChunkEv.streamErr] false) [] "Failed during streaming"
      [] 1 (FState.mk [] (fun _ => none) (fun _ _ => false)) rfl rfl rfl).trans rfl,
    (infinite_retry_download_tag_driven (RPath.mk [] "f" none)
      (RPath.mk [] "~!f" none)).2.2.1
      (Attempt.mk false false [ChunkEv.chunk [7] false] false) []
      "Failed writing to disk" [] (FState.mk [] (fun _ => none) (fun _ _ => false))
      rfl rfl rfl⟩

/-- Claim C10: when deleting the temp file after a `Retry`-tagged streaming failure
itself fails, the loop does not retry: it returns the error
"Unable to delete temporary file" to the caller, so a transient failure can
still terminate the resource's download. -/
theorem infinite_retry_download_remove_fail (dest temp : RPath) (a : Attempt)
    (rest : List Attempt) (fs : FState) (e : String) (c : List Nat)
    (hcf : a.createFail = false)
    (hdc : download_chunks a = (.error (.Retry e), c))
    (hrm : a.removeFail = true) :
    infinite_retry_download dest temp (a :: rest) fs =
      .err "Unable to delete temporary file"
        (fs.set temp (FileData.mk c (some 0))) :=
  dl_step_remove_fail dest temp a rest fs (.Retry e) c hcf hdc hrm

/-- Witness for C10: a concrete transient stream failure followed by a failing
temp delete ends the download with "Unable to delete temporary file" even
though further attempts were scripted. -/
theorem infinite_retry_download_remove_fail_witness :
    infinite_retry_download (RPath.mk [] "f" none) (RPath.mk [] "~!f" none)
        [Attempt.mk false false [ChunkEv.streamErr] true,
          Attempt.mk false false [] false]
        (FState.mk [] (fun _ => none) (fun _ _ => false)) =
      .err "Unable to delete temporary file"
        ((FState.mk [] (fun _ => none) (fun _ _ => false)).set
          (RPath.mk [] "~!f" none) (FileData.mk [] (some 0))) :=
  infinite_retry_download_remove_fail (RPath.mk [] "f" none)
    (RPath.mk [] "~!f" none) (Attempt.mk false false [ChunkEv.streamErr] true)
    [Attempt.mk false false [] false]
    (FState.mk [] (fun _ => none) (fun _ _ => false))
    "Failed during streaming" [] rfl rfl rfl

/-- Claim C4: for a resource whose local file's modification time is at least the
remote last-updated time, `download` returns `AlreadyHave` and performs no
filesystem writes (the state is returned unchanged), for every overwrite mode
and every download script — so a second sync over an unchanged tree only
reports `AlreadyHave`. -/
theorem download_already_have_no_writes (dateStr : Nat → String) (f : File)
    (script : DlScript) (dest temp : RPath) (mode : OverwriteMode) (fs : FState)
    (fd : FileData) (t : Nat) (hmeta : fs.metaFail dest = none)
    (hlook : fs.lookup dest = some fd) (hmod : fd.modified = some t)
    (hle : f.last_updated ≤ t) :
    File.download dateStr f script dest temp mode fs = .ok .AlreadyHave fs := by
  have hprep : File.prepare_path dateStr f dest mode fs =
      (.ok (false, .AlreadyHave), fs) := by
    simp [File.prepare_path, FState.metadataProbe, hmeta, hlook, hmod, hle]
  simp [File.download, hprep]

/-- Witness for C4: a concrete up-to-date local file makes `download` report
`AlreadyHave` and leave the filesystem untouched. -/
theorem download_already_have_no_writes_witness :
    File.download natDec (File.mk "id4" ["b"] 3)
        (DlScript.mk (.ok ()) false [Attempt.mk false false [] false])
        (RPath.mk [] "b" none) (RPath.mk [] "~!b" none) .Overwrite
        (FState.mk [(RPath.mk [] "b" none, FileData.mk [4] (some 8))]
          (fun _ => none) (fun _ _ => false)) =
      .ok .AlreadyHave
        (FState.mk [(RPath.mk [] "b" none, FileData.mk [4] (some 8))]
          (fun _ => none) (fun _ _ => false)) :=
  download_already_have_no_writes natDec (File.mk "id4" ["b"] 3)
    (DlScript.mk (.ok ()) false [Attempt.mk false false [] false])
    (RPath.mk [] "b" none) (RPath.mk [] "~!b" none) .Overwrite
    (FState.mk [(RPath.mk [] "b" none, FileData.mk [4] (some 8))]
      (fun _ => none) (fun _ _ => false))
    (FileData.mk [4] (some 8)) 8 rfl rfl rfl (by decide)

theorem optionTraverse_eq_none {α β : Type} (f : α → Option β) (l : List α)
    (h : ∃ x ∈ l, f x = none) : optionTraverse f l = none := by
  induction l with
  | nil => simp at h
  | cons x xs ih =>
    rcases h with ⟨y, hy, hfy⟩
    rcases List.mem_cons.mp hy with rfl | hmem
    · simp [optionTraverse, hfy]
    · cases hfx : f x with
      | none => simp [optionTraverse, hfx]
      | some b => simp [optionTraverse, hfx, ih ⟨y, hmem, hfy⟩]

/-- Claim C9: if any entry of a folder's direct-file listing has a last-updated
string the RFC 3339 parser rejects, `DirectoryHandle::load` panics (through
`parse_time`'s `expect`) rather than returning an error value, whatever the
subdirectory listing yields — so `load` is not total over arbitrary server
responses. -/
theorem load_panics_on_bad_timestamp (parse : String → Option Nat) (api : Api)
    (include_uploadable : Bool) (fuel : Nat) (dh : DirectoryHandle)
    (entries : List ApiFileDirectoryEntry)
    (hfiles : api.filesResp dh.id = .ok (some entries))
    (hbad : ∃ e ∈ entries, parse e.last_updated_date = none) :
    DirectoryHandle.load parse api include_uploadable (fuel + 1) dh =
      .panicked := by
  rw [DirectoryHandle.load_succ]
  have hfr : get_files parse api dh = .panicked := by
    unfold get_files
    simp only [hfiles]
    rw [optionTraverse_eq_none _ entries (by
      rcases hbad with ⟨e, he, hpe⟩
      exact ⟨e, he, by simp [parse_time, hpe]⟩)]
  rw [hfr]
  cases get_subdirs parse api include_uploadable fuel dh <;> rfl

/-- Witness for C9: a concrete server response with one unparsable timestamp
makes `load` panic. -/
theorem load_panics_on_bad_timestamp_witness :
    DirectoryHandle.load (fun _ => none)
        (Api.mk (fun _ => .ok none)
          (fun _ => .ok (some [ApiFileDirectoryEntry.mk "f1" "x" none "bad-time" none])))
        false 1 (DirectoryHandle.mk "r" ["R"] false) = .panicked :=
  load_panics_on_bad_timestamp (fun _ => none)
    (Api.mk (fun _ => .ok none)
      (fun _ => .ok (some [ApiFileDirectoryEntry.mk "f1" "x" none "bad-time" none])))
    false 0 (DirectoryHandle.mk "r" ["R"] false)
    [ApiFileDirectoryEntry.mk "f1" "x" none "bad-time" none]
    rfl ⟨ApiFileDirectoryEntry.mk "f1" "x" none "bad-time" none,
      List.mem_singleton.mpr rfl, rfl⟩

/-- Claim C5 counterexample: a concrete tree with one subfolder file `x` and one
direct file `y`.  `load` returns the subfolder's resources *first* and the
folder's own files *after* them — the opposite of the claimed order (the claim
would require `[y, x]`, the code produces `[x, y]`). -/
theorem load_order_counterexample :
    DirectoryHandle.load (fun _ => some 7)
        (Api.mk
          (fun id => if id = "r" then
              .ok (some [ApiFileDirectoryEntry.mk "d" "D" (some false) "T" none])
            else .ok (some []))
          (fun id => if id = "r" then
              .ok (some [ApiFileDirectoryEntry.mk "fy" "y" none "T" none])
            else if id = "d" then
              .ok (some [ApiFileDirectoryEntry.mk "fx" "x" none "T" none])
            else .ok (some [])))
        false 2 (DirectoryHandle.mk "r" ["R"] false) =
      .ok [File.mk "fx" ["R", "D", "x"] 7, File.mk "fy" ["R", "y"] 7] ∧
    [File.mk "fx" ["R", "D", "x"] 7, File.mk "fy" ["R", "y"] 7] ≠
      [File.mk "fy" ["R", "y"] 7, File.mk "fx" ["R", "D", "x"] 7] :=
  ⟨rfl, by decide⟩

/-- Claim C5 amended: both per-folder requests are issued jointly, and whenever
both succeed the flattened child-folder recursion results come *first*, with
the folder's own direct files appended *after* them. -/
theorem load_subdir_results_precede_direct_files (parse : String → Option Nat)
    (api : Api) (include_uploadable : Bool) (fuel : Nat) (dh : DirectoryHandle)
    (a b : List File)
    (hsub : get_subdirs parse api include_uploadable fuel dh = .ok a)
    (hfil : get_files parse api dh = .ok b) :
    DirectoryHandle.load parse api include_uploadable (fuel + 1) dh =
      .ok (a ++ b) := by
  rw [DirectoryHandle.load_succ, hsub, hfil]
  rfl

/-- Witness for the amended C5: on the concrete tree the subfolder's file list
`[x]` precedes the direct file list `[y]` in the final result. -/
theorem load_subdir_results_precede_direct_files_witness :
    DirectoryHandle.load (fun _ => some 7)
        (Api.mk
          (fun id => if id = "r" then
              .ok (some [ApiFileDirectoryEntry.mk "d" "D" (some false) "U" none])
            else .ok (some []))
          (fun id => if id = "r" then
              .ok (some [ApiFileDirectoryEntry.mk "fy" "y" none "U" none])
            else if id = "d" then
              .ok (some [ApiFileDirectoryEntry.mk "fx" "x" none "U" none])
            else .ok (some [])))
        false 2 (DirectoryHandle.mk "r" ["R"] false) =
      .ok ([File.mk "fx" ["R", "D", "x"] 7] ++ [File.mk "fy" ["R", "y"] 7]) :=
  load_subdir_results_precede_direct_files (fun _ => some 7)
    (Api.mk
      (fun id => if id = "r" then
          .ok (some [ApiFileDirectoryEntry.mk "d" "D" (some false) "U" none])
        else .ok (some []))
      (fun id => if id = "r" then
          .ok (some [ApiFileDirectoryEntry.mk "fy" "y" none "U" none])
        else if id = "d" then
          .ok (some [ApiFileDirectoryEntry.mk "fx" "x" none "U" none])
        else .ok (some [])))
    false 1 (DirectoryHandle.mk "r" ["R"] false)
    [File.mk "fx" ["R", "D", "x"] 7] [File.mk "fy" ["R", "y"] 7] rfl rfl

/-- Claim C8 counterexample: `sanitise_filename` passes `~!foo` through unchanged,
so a legitimate resolver-produced name may start with `~!`; then the temp
path of resource `course/foo` equals the real path of resource
`course/~!foo` — temp names *can* collide with legitimate resource names. -/
theorem temp_path_collision_counterexample :
    sanitise_filename "~!foo" = "~!foo" ∧
    temp_path ["dl"] ["course", "foo"] = real_path ["dl"] ["course", "~!foo"] :=
  ⟨rfl, rfl⟩

/-- Claim C8 amended: each resource's temp path lives in the same directory as
its own final path, and always differs from that resource's own final path
(the temp name prepends `~!`); collision with *another* resource's final path
remains possible, as the counterexample shows. -/
theorem temp_path_same_dir_distinct (dest fpath : List String)
    (h : fpath ≠ []) :
    (temp_path dest fpath).dropLast = (real_path dest fpath).dropLast ∧
    temp_path dest fpath ≠ real_path dest fpath := by
  rcases List.eq_nil_or_concat fpath with rfl | ⟨l, a, rfl⟩
  · exact absurd rfl h
  · simp only [List.concat_eq_append]
    have h1 : temp_path dest (l ++ [a]) =
        (dest ++ l) ++ [make_temp_file_name a] := by
      simp [temp_path, List.dropLast_concat, List.getLastD_concat,
        List.append_assoc]
    have h2 : real_path dest (l ++ [a]) = (dest ++ l) ++ [a] := by
      simp [real_path, List.append_assoc]
    constructor
    · rw [h1, h2, List.dropLast_concat, List.dropLast_concat]
    · rw [h1, h2]
      intro heq
      have hsing := List.append_cancel_left heq
      have hlast : make_temp_file_name a = a := by
        injection hsing
      have hlen := congrArg String.length hlast
      rw [make_temp_file_name, String.length_append] at hlen
      have h2len : ("~!" : String).length = 2 := rfl
      omega

/-- Witness for the amended C8: concretely, `course/foo`'s temp path shares
its directory with, and differs from, its own final path. -/
theorem temp_path_same_dir_distinct_witness :
    (temp_path ["dl"] ["course", "foo"]).dropLast =
      (real_path ["dl"] ["course", "foo"]).dropLast ∧
    temp_path ["dl"] ["course", "foo"] ≠ real_path ["dl"] ["course", "foo"] :=
  temp_path_same_dir_distinct ["dl"] ["course", "foo"] (by decide)
